import Mathlib

/-!
Verification development for splik (Simple Programming Language Identifier Kit),
a single-file Rust program (src/main.rs) that scans a directory tree and reports
how source code is distributed across programming languages.

The embedding below translates the program's data model and operations into Lean:
  * `extensionOf` models `std::path::Path::extension` on a file name;
  * `LANGUAGES`, `IGNORED_DIRECTORIES`, `ROOT_INDICATORS` are the program's
    static tables, reproduced verbatim;
  * `linesCount` models `BufRead::lines(...).count()` on the raw bytes of a file;
  * `LanguageInfo` / `LanguageList` model the aggregator structures, with the
    Rust `u32` line counter and `u64` byte counter modelled as `Nat` with
    explicit `% 2^32` / `% 2^64` reductions where the source's fixed-width
    arithmetic wraps;
  * `addFile` models `LanguageList::add_file`; fallible filesystem reads
    (`std::fs::read`, `std::fs::metadata`, `Path::canonicalize`) are modelled by
    `Option` fields of `FileData`, and the `.unwrap()` panics that abort the
    process are modelled by `Except.error`;
  * `analyzeEntries` / `analyzeDirectory` model `analyze_directory`, over an
    explicit filesystem tree `FsEntry` (a directory whose `read_dir` fails is a
    `.dir` node with `readable = false`);
  * `LanguageList.sort` models `Vec::sort` under the reversed-on-bytes derived
    `Ord`: Rust's `sort` is a stable sort, so it is modelled by `List.mergeSort`
    with the same total preorder (stable sorting is uniquely determined by the
    comparison, so this is the unique faithful model);
  * `getRootDir` models `get_root_dir`, over paths represented as lists of
    components from the filesystem root (`[]` is the root, `parent` is
    `dropLast`, and `Path::parent` of the root returning `None` is the `[]`
    case); the filesystem is an existence predicate on paths;
  * `totalBytes`/`otherBytes`/`emittedRecords` and friends model the
    human-readable `display` path.
-/

/-- Bytes of file content, as produced by `std::fs::read`. Newline is byte 10. -/
abbrev FileBytes := List Nat

/-- Models `std::path::Path::extension()` on a file name: the portion of the
name after the last `.`, or `none` when there is no `.` or the only `.` is the
leading character (so `".gitignore"` has no extension, `"a.py"` has `some "py"`,
`"foo."` has `some ""`). `splitAtLastDot` returns the parts before and after
the last dot, or `none` when no dot occurs. -/
def splitAtLastDot : List Char → Option (List Char × List Char)
  | [] => none
  | c :: rest =>
    match splitAtLastDot rest with
    | some (pre, ext) => some (c :: pre, ext)
    | none => if c = '.' then some ([], rest) else none

/-- Rust `Path::extension` semantics on a file name (see `splitAtLastDot`). -/
def extensionOf (filename : String) : Option String :=
  match splitAtLastDot filename.toList with
  | some (pre, ext) => if pre = [] then none else some (String.mk ext)
  | none => none

/-- The `LANGUAGES` map of the source (a `phf` compile-time map from lowercase
extension to canonical language display name), reproduced entry for entry.
Lookup is exact, case-sensitive string matching, as in `phf::Map::get`. -/
def LANGUAGES : List (String × String) := [
  ("asm", "Assembly"),
  ("bash", "Bash"),
  ("c", "C"),
  ("h", "C"),
  ("cpp", "C++"),
  ("c++", "C++"),
  ("cxx", "C++"),
  ("cc", "C++"),
  ("hpp", "C++"),
  ("hh", "C++"),
  ("h++", "C++"),
  ("hxx", "C++"),
  ("cs", "C#"),
  ("f", "Fortran"),
  ("for", "Fortran"),
  ("f90", "Fortran"),
  ("f95", "Fortran"),
  ("gleam", "Gleam"),
  ("go", "Go"),
  ("lhs", "Haskell"),
  ("hs", "Haskell"),
  ("java", "Java"),
  ("js", "JavaScript"),
  ("mjs", "JavaScript"),
  ("cjs", "JavaScript"),
  ("jsx", "JavaScript React"),
  ("kt", "Kotlin"),
  ("lua", "Lua"),
  ("m", "MATLAB"),
  ("php", "PHP"),
  ("py", "Python"),
  ("r", "R"),
  ("rb", "Ruby"),
  ("rs", "Rust"),
  ("sql", "SQL"),
  ("svelte", "Svelte"),
  ("swift", "Swift"),
  ("ts", "TypeScript"),
  ("tsx", "TypeScript React"),
  ("v", "V"),
  ("vue", "Vue"),
  ("zig", "Zig")]

/-- `IGNORED_DIRECTORIES` from the source: directory names skipped by default. -/
def IGNORED_DIRECTORIES : List String := ["node_modules", "target", "dist", "build", "public", "out"]

/-- `ROOT_INDICATORS` from the source: names whose presence marks a project root. -/
def ROOT_INDICATORS : List String := [
  ".git",
  ".gitignore",
  "node_modules",
  "Cargo.toml",
  "build.zig",
  "pyproject.toml",
  ".luarc.json",
  "tsconfig.json",
  ".prettierrc",
  ".prettierrc.json",
  ".prettierrc.toml",
  "README.md",
  "README",
  "LICENSE",
  "index.html"]

/-- One step of `BufRead::lines` iteration on raw bytes: drop everything up to
and including the first newline byte (byte 10). -/
def dropLine : FileBytes → FileBytes
  | [] => []
  | b :: rest => if b = 10 then rest else dropLine rest

theorem dropLine_length_le : ∀ l : FileBytes, (dropLine l).length ≤ l.length
  | [] => Nat.le_refl _
  | b :: rest => by
    simp only [dropLine]
    split
    · exact Nat.le_succ _
    · exact Nat.le_trans (dropLine_length_le rest) (Nat.le_succ _)

theorem dropLine_cons_length (b : Nat) (rest : FileBytes) :
    (dropLine (b :: rest)).length ≤ rest.length := by
  simp only [dropLine]
  split
  · exact Nat.le_refl _
  · exact dropLine_length_le rest

/-- Models `std::fs::read(path).unwrap().lines().count()`: the number of
nonempty reads performed by the `BufRead::lines` iterator over the raw bytes,
i.e. the number of newline-delimited segments (a final segment with no
trailing newline still counts; an empty file yields 0). Items of the iterator
that are UTF-8 decoding errors are still items, so `count()` is oblivious to
encoding validity, exactly as in the source. -/
def linesCount : FileBytes → Nat
  | [] => 0
  | b :: rest => 1 + linesCount (dropLine (b :: rest))
termination_by l => l.length
decreasing_by
  simp only [List.length_cons]
  exact Nat.lt_succ_of_le (dropLine_cons_length b rest)

/-- Modulus of the Rust `u32` arithmetic used for line counts. -/
def UINT32_MOD : Nat := 2 ^ 32

/-- Modulus of the Rust `u64` arithmetic used for byte counts. -/
def UINT64_MOD : Nat := 2 ^ 64

/-- `LanguageInfo` from the source: per-language statistics. `lines` is a Rust
`u32` and `bytes` a Rust `u64`; both are modelled as `Nat` with explicit
wrap-around where the source performs fixed-width arithmetic. -/
structure LanguageInfo where
  name : String
  files : List String
  lines : Nat
  bytes : Nat
deriving Repr, DecidableEq

/-- `LanguageInfo::new`: a zero-valued record for the given language name. -/
def LanguageInfo.new (name : String) : LanguageInfo :=
  { name := name, files := [], lines := 0, bytes := 0 }

/-- The in-place update in `add_file` (lines 204-207 of the source):
`info.lines += read(path).lines().count() as u32` (the `usize → u32` cast and
the `u32` addition both wrap modulo `2^32`), `info.bytes += metadata(path).len()`
(`u64`, wraps modulo `2^64`), and `info.files.push(canonicalized path)`. -/
def updateOne (info : LanguageInfo) (cnt size : Nat) (canon : String) : LanguageInfo :=
  { info with
      lines := (info.lines + cnt % UINT32_MOD) % UINT32_MOD,
      bytes := (info.bytes + size) % UINT64_MOD,
      files := info.files ++ [canon] }

/-- The find-or-create-then-update step of `add_file`: locate the first record
whose `name` equals the language (Vec order preserved), update it in place; if
none exists, push a fresh `LanguageInfo::new` record and update that. -/
def updateLanguages (langs : List LanguageInfo) (language : String) (cnt size : Nat)
    (canon : String) : List LanguageInfo :=
  match langs with
  | [] => [updateOne (LanguageInfo.new language) cnt size canon]
  | info :: rest =>
    if info.name = language then
      updateOne info cnt size canon :: rest
    else
      info :: updateLanguages rest language cnt size canon

/-- The command-line configuration relevant to the traversal (the `Arguments`
struct of the source, restricted to the fields the pipeline reads; the source
field `include` is renamed `includeNames` because `include` is a Lean keyword). -/
structure Arguments where
  include_dotfiles : Bool
  exclude : List String
  includeNames : List String
  here : Bool
deriving Repr, DecidableEq

/-- Results of the three fallible filesystem operations `add_file` performs on
a classified file. `none` models the operation failing (each is `.unwrap()`ed
in the source, so `none` makes the process panic). -/
structure FileData where
  content : Option FileBytes
  size : Option Nat
  canonical : Option String
deriving Repr, DecidableEq

/-- `LanguageList` from the source. -/
structure LanguageList where
  languages : List LanguageInfo
deriving Repr, DecidableEq

/-- `LanguageList::add_file`. The extension is taken from the file name
(`path.extension()`), looked up in `LANGUAGES`; an excluded language returns
with no effect; otherwise the three filesystem reads happen in source order
and any failure is the fatal `.unwrap()` panic, modelled as `Except.error`.
(The source also skips files whose extension is not valid UTF-8; file names
are `String`s here, so that case cannot arise in the model.) -/
def addFile (filename : String) (data : FileData) (args : Arguments)
    (st : LanguageList) : Except String LanguageList :=
  match extensionOf filename with
  | none => .ok st
  | some ext =>
    match List.lookup ext LANGUAGES with
    | none => .ok st
    | some language =>
      if args.exclude.contains language then .ok st
      else
        match data.content with
        | none => .error "panicked: std::fs::read failed"
        | some content =>
          match data.size with
          | none => .error "panicked: std::fs::metadata failed"
          | some size =>
            match data.canonical with
            | none => .error "panicked: Path::canonicalize failed"
            | some canon =>
              .ok ⟨updateLanguages st.languages language (linesCount content) size canon⟩

/-- A snapshot of a directory tree. A `.dir` node carries the outcome of
`std::fs::read_dir` on it: `readable = false` models the `Err` case (the
entries list is then irrelevant), `readable = true` models `Ok` with the given
entries. A `.file` node carries the outcomes of the reads `add_file` performs. -/
inductive FsEntry where
  | dir (name : String) (readable : Bool) (entries : List FsEntry)
  | file (name : String) (data : FileData)

/-- The file name of an entry, as `entry.path().file_name()` yields it. -/
def entryName : FsEntry → String
  | .dir n _ _ => n
  | .file n _ => n

/-- Models the source's `filename.starts_with(".")`: true iff the first
character of the name is `'.'`. -/
def startsWithDot (s : String) : Bool :=
  match s.toList with
  | [] => false
  | c :: _ => c = '.'

mutual

/-- `analyze_directory` from the source: `read_dir` failure returns with the
accumulator untouched (`let Ok(entries) = read_dir(..) else return`); otherwise
the entries are processed in order. An `Except.error` is a panic propagating
out of `add_file` and aborting the whole run. -/
def analyzeDirectory (args : Arguments) (readable : Bool) (entries : List FsEntry)
    (st : LanguageList) : Except String LanguageList :=
  if readable then analyzeEntries args entries st else .ok st
termination_by sizeOf entries + 1

/-- The entry loop of `analyze_directory`: skip dot-entries unless
`include_dotfiles`; skip ignored directories unless named in the include list;
recurse into remaining directories; hand remaining files to `add_file`. -/
def analyzeEntries (args : Arguments) (entries : List FsEntry)
    (st : LanguageList) : Except String LanguageList :=
  match entries with
  | [] => .ok st
  | entry :: rest =>
    if !args.include_dotfiles && startsWithDot (entryName entry) then
      analyzeEntries args rest st
    else
      match entry with
      | .dir name readable sub =>
        if IGNORED_DIRECTORIES.contains name && !args.includeNames.contains name then
          analyzeEntries args rest st
        else
          match analyzeDirectory args readable sub st with
          | .error e => .error e
          | .ok st2 => analyzeEntries args rest st2
      | .file name data =>
        match addFile name data args st with
        | .error e => .error e
        | .ok st2 => analyzeEntries args rest st2
termination_by sizeOf entries

end

/-- `LanguageList::sort`: `Vec::sort` with the derived `Ord` on `LanguageInfo`,
whose `cmp(self, other)` is `other.bytes.cmp(&self.bytes)` — i.e. a stable sort
into descending byte order. Rust's `sort` is stable, and a stable sort is
uniquely determined by its comparison, so `List.mergeSort` under the same total
preorder is the faithful model. -/
def LanguageList.sort (st : LanguageList) : LanguageList :=
  ⟨st.languages.mergeSort (fun a b => decide (b.bytes ≤ a.bytes))⟩

/-- `LanguageList::find` (the Finder): lowercase the query once, emit the files
of the first record whose lowercased name matches, or nothing. Returns the list
of printed lines. (Rust `str::to_lowercase` is modelled by `String.toLower`;
they agree on the ASCII language names this program uses.) -/
def LanguageList.findFiles (st : LanguageList) (language_name : String) : List String :=
  let q := language_name.toLower
  match st.languages.find? (fun language => language.name.toLower = q) with
  | some language => language.files
  | none => []

/-- The grand-total byte accumulator of `display` (a `u64`, wrapping). -/
def totalBytes (langs : List LanguageInfo) : Nat :=
  langs.foldl (fun acc i => (acc + i.bytes) % UINT64_MOD) 0

/-- The grand-total line accumulator of `display` (a `u32`, wrapping). -/
def totalLines (langs : List LanguageInfo) : Nat :=
  langs.foldl (fun acc i => (acc + i.lines) % UINT32_MOD) 0

/-- The grand-total file accumulator of `display` (a `usize`, wrapping). -/
def totalFiles (langs : List LanguageInfo) : Nat :=
  langs.foldl (fun acc i => (acc + i.files.length) % UINT64_MOD) 0

/-- The byte-share test of `display`. Source: `100.0 * (bytes as f64) /
(total as f64) >= 1.` in `f64` arithmetic. Modelled exactly over the integers:
for a positive total the comparison is `total ≤ 100 * bytes`, and for a zero
total the `f64` division yields NaN, which compares false. (Rounding of the
`f64` operations near the threshold is not modelled; within `display` both
operands are bounded by the grand total, and the conservation property proved
below holds whatever this predicate returns.) -/
def bytePercentAtLeastOne (bytes total : Nat) : Bool :=
  total != 0 && decide (total ≤ 100 * bytes)

/-- The records `display` emits individually (byte share at least one percent). -/
def emittedRecords (langs : List LanguageInfo) : List LanguageInfo :=
  langs.filter (fun i => bytePercentAtLeastOne i.bytes (totalBytes langs))

/-- The records `display` folds into the Other bucket. -/
def otherRecords (langs : List LanguageInfo) : List LanguageInfo :=
  langs.filter (fun i => !bytePercentAtLeastOne i.bytes (totalBytes langs))

/-- The `other_bytes` accumulator of `display` (a `u64`, wrapping). -/
def otherBytes (langs : List LanguageInfo) : Nat :=
  (otherRecords langs).foldl (fun acc i => (acc + i.bytes) % UINT64_MOD) 0

/-- The `other_lines` accumulator of `display` (a `u32`, wrapping). -/
def otherLines (langs : List LanguageInfo) : Nat :=
  (otherRecords langs).foldl (fun acc i => (acc + i.lines) % UINT32_MOD) 0

/-- The `other_files` accumulator of `display` (a `usize`, wrapping). -/
def otherFiles (langs : List LanguageInfo) : Nat :=
  (otherRecords langs).foldl (fun acc i => (acc + i.files.length) % UINT64_MOD) 0

/-- A filesystem existence oracle for the root locator: paths are lists of
components counted from the filesystem root (`[]` is the root itself), and the
oracle answers `Path::exists`. -/
abbrev FsExists := List String → Bool

/-- The marker test inside `get_root_dir`'s loop: some entry of
`ROOT_INDICATORS` exists directly inside `dir`. -/
def hasRootIndicator (ex : FsExists) (dir : List String) : Bool :=
  ROOT_INDICATORS.any (fun root => ex (dir ++ [root]))

/-- `get_root_dir` from the source: if the directory directly contains a root
indicator it is the root; otherwise recurse on `Path::parent`, which is `none`
at the filesystem root (`[]`), making the whole call yield `none`. Each
recursive step drops the last path component, so the recursion is structural
on the (finite) parent chain and terminates. -/
def getRootDir (ex : FsExists) (dir : List String) : Option (List String) :=
  if hasRootIndicator ex dir then some dir
  else
    match dir with
    | [] => none
    | x :: rest => getRootDir ex ((x :: rest).dropLast)
termination_by dir.length
decreasing_by
  simp only [List.length_dropLast, List.length_cons]
  omega

/-- The chain of ancestors of a path, nearest first: the path itself, its
parent, and so on up to the filesystem root `[]`. -/
def ancestors (dir : List String) : List (List String) :=
  dir :: (match dir with
    | [] => []
    | x :: rest => ancestors ((x :: rest).dropLast))
termination_by dir.length
decreasing_by
  simp only [List.length_dropLast, List.length_cons]
  omega

/-- The find-root code path of `main` (lines 8-24 of the source): the printed
root is the source directory when `--here` is set, otherwise `get_root_dir`'s
answer with fallback to the source directory (`unwrap_or(source)`); `main` then
unconditionally prints that one line. The result is the list of printed lines. -/
def findRootOutput (ex : FsExists) (args : Arguments) (source : List String) :
    List (List String) :=
  let root := if args.here then source else (getRootDir ex source).getD source
  [root]

/-! ## Helper lemmas -/

theorem linesCount_characterization : ∀ l : FileBytes,
    linesCount l = List.count 10 l + (if l.getLast? = some 10 ∨ l = [] then 0 else 1) := by
  intro l
  induction l with
  | nil => simp [linesCount]
  | cons b rest ih =>
    rw [linesCount]
    by_cases hb : b = 10
    · subst hb
      have hd : dropLine (10 :: rest) = rest := by simp [dropLine]
      rw [hd]
      cases rest with
      | nil => simp [linesCount]
      | cons c rest2 =>
        rw [ih]
        simp only [List.count_cons_self, List.getLast?_cons_cons, List.cons_ne_nil]
        split <;> omega
    · have hd : dropLine (b :: rest) = dropLine rest := by simp [dropLine, hb]
      rw [hd]
      cases rest with
      | nil =>
        simp [linesCount, dropLine, List.count_cons, hb]
      | cons c rest2 =>
        have hfold : linesCount (c :: rest2) = 1 + linesCount (dropLine (c :: rest2)) := by
          rw [linesCount]
        rw [← hfold, ih]
        have hcnt : List.count 10 (b :: c :: rest2) = List.count 10 (c :: rest2) :=
          List.count_cons_of_ne (fun h => hb h.symm) _
        rw [hcnt]
        simp only [List.getLast?_cons_cons, List.cons_ne_nil]

theorem updateLanguages_map_name (langs : List LanguageInfo) (language : String)
    (cnt size : Nat) (canon : String) :
    (updateLanguages langs language cnt size canon).map (fun i => i.name) =
      if language ∈ langs.map (fun i => i.name) then langs.map (fun i => i.name)
      else langs.map (fun i => i.name) ++ [language] := by
  induction langs with
  | nil => simp [updateLanguages, updateOne, LanguageInfo.new]
  | cons info rest ih =>
    simp only [updateLanguages, List.map_cons]
    by_cases h : info.name = language
    · simp [h, updateOne]
    · rw [if_neg h]
      simp only [List.map_cons, updateOne]
      rw [ih]
      have hne : language ≠ info.name := fun hx => h hx.symm
      by_cases hmem : language ∈ rest.map (fun i => i.name)
      · simp [hmem, hne]
      · simp [hmem, hne]

theorem updateLanguages_filesSum (langs : List LanguageInfo) (language : String)
    (cnt size : Nat) (canon : String) :
    ((updateLanguages langs language cnt size canon).map (fun i => i.files.length)).sum =
      (langs.map (fun i => i.files.length)).sum + 1 := by
  induction langs with
  | nil => simp [updateLanguages, updateOne, LanguageInfo.new]
  | cons info rest ih =>
    simp only [updateLanguages]
    by_cases h : info.name = language
    · simp [h, updateOne]
      omega
    · simp only [if_neg h, List.map_cons, List.sum_cons, ih]
      omega

theorem foldl_mod_eq_sum_mod (W : Nat) (f : LanguageInfo → Nat) (l : List LanguageInfo) :
    l.foldl (fun acc i => (acc + f i) % W) 0 = (l.map f).sum % W := by
  have gen : ∀ (l : List LanguageInfo) (a : Nat),
      l.foldl (fun acc i => (acc + f i) % W) (a % W) = (a + (l.map f).sum) % W := by
    intro l
    induction l with
    | nil => intro a; simp
    | cons i rest ih =>
      intro a
      simp only [List.foldl_cons, List.map_cons, List.sum_cons]
      rw [Nat.mod_add_mod, ih (a + f i), Nat.add_assoc]
  have h := gen l 0
  rw [Nat.zero_mod] at h
  simpa using h

theorem sum_map_filter_partition (p : LanguageInfo → Bool) (f : LanguageInfo → Nat)
    (l : List LanguageInfo) :
    ((l.filter p).map f).sum + ((l.filter (fun i => !p i)).map f).sum = (l.map f).sum := by
  induction l with
  | nil => simp
  | cons i rest ih =>
    cases hp : p i <;> simp [List.filter_cons, hp] <;> omega

theorem getRootDir_eq_find (ex : FsExists) : ∀ dir : List String,
    getRootDir ex dir = (ancestors dir).find? (fun d => hasRootIndicator ex d)
  | [] => by
    rw [getRootDir.eq_def, ancestors.eq_def]
    by_cases h : hasRootIndicator ex ([] : List String) <;> simp [h]
  | x :: rest => by
    rw [getRootDir.eq_def, ancestors.eq_def]
    by_cases h : hasRootIndicator ex (x :: rest)
    · simp [h]
    · have hfalse : hasRootIndicator ex (x :: rest) = false := by simpa using h
      simp only [hfalse, Bool.false_eq_true, if_false, List.find?_cons]
      exact getRootDir_eq_find ex ((x :: rest).dropLast)
termination_by dir => dir.length
decreasing_by
  simp only [List.length_dropLast, List.length_cons]
  omega

/-! ## Claims -/

/-- C1 (code bug): a dot-entry whose exact name is in the include-list is still
skipped by the walker when include-dotfiles is unset — the dotfile check at the
top of `analyze_directory` never consults the include-list, contradicting the
documented semantics of the `--include` flag. The same directory with
include-dotfiles set counts the file, which shows nothing else filters it. -/
theorem c1_dotfile_in_include_list_still_skipped :
    analyzeEntries ⟨false, [], [".hidden.py"], false⟩
      [.file ".hidden.py" ⟨some [97], some 1, some "/x/.hidden.py"⟩] ⟨[]⟩ = .ok ⟨[]⟩
    ∧ analyzeEntries ⟨true, [], [".hidden.py"], false⟩
      [.file ".hidden.py" ⟨some [97], some 1, some "/x/.hidden.py"⟩] ⟨[]⟩ =
        .ok ⟨[⟨"Python", ["/x/.hidden.py"], 1, 1⟩]⟩
    ∧ (LanguageList.mk [] ≠ ⟨[⟨"Python", ["/x/.hidden.py"], 1, 1⟩]⟩) := by
  refine ⟨?_, ?_, by simp⟩
  · simp [analyzeEntries, entryName, startsWithDot]
  · simp [analyzeEntries, entryName, startsWithDot, addFile, extensionOf, splitAtLastDot,
      LANGUAGES, List.lookup, linesCount, dropLine, updateLanguages, updateOne,
      LanguageInfo.new, UINT32_MOD, UINT64_MOD]

/-- C2 (code bug): in find-root mode with no marker anywhere up the ancestor
chain, `get_root_dir` yields `none`, yet `main` prints the fallback source
directory (`unwrap_or(source)` happens before the `find_root` check), so the
output is one line rather than nothing, contradicting the flag's documented
"prints nothing" behavior. -/
theorem c2_find_root_prints_fallback :
    getRootDir (fun _ => false) ["home", "user"] = none
    ∧ findRootOutput (fun _ => false) ⟨false, [], [], false⟩ ["home", "user"] = [["home", "user"]]
    ∧ ([["home", "user"]] : List (List String)) ≠ [] := by
  refine ⟨?_, ?_, by simp⟩
  · simp [getRootDir, hasRootIndicator, ROOT_INDICATORS]
  · simp [findRootOutput, getRootDir, hasRootIndicator, ROOT_INDICATORS]

/-- C3 counterexample: a one-byte file `"a"` (no trailing newline) contributes
line count 1 to the aggregator while its content has 0 newline bytes, so the
contributed count does not equal the newline-byte count. -/
theorem c3_newline_byte_count_counterexample :
    addFile "a.py" ⟨some [97], some 1, some "/a.py"⟩ ⟨false, [], [], false⟩ ⟨[]⟩ =
      .ok ⟨[⟨"Python", ["/a.py"], 1, 1⟩]⟩
    ∧ List.count 10 [97] = 0
    ∧ (1 : Nat) ≠ 0 := by
  refine ⟨?_, by simp, by simp⟩
  simp [addFile, extensionOf, splitAtLastDot, LANGUAGES, List.lookup, linesCount, dropLine,
    updateLanguages, updateOne, LanguageInfo.new, UINT32_MOD, UINT64_MOD]

/-- C3 (amended): the line count a classified, non-excluded file contributes is
the number of line-terminator-delimited segments of its raw byte content
(truncated to 32 bits by the `as u32` cast), and that segment count equals the
newline-byte count plus one exactly when the content is nonempty and does not
end in a newline (it equals the newline-byte count otherwise). -/
theorem c3_lines_are_segments (filename ext language : String) (content : FileBytes)
    (size : Nat) (canon : String) (args : Arguments)
    (hext : extensionOf filename = some ext)
    (hlang : List.lookup ext LANGUAGES = some language)
    (hexc : args.exclude.contains language = false) :
    addFile filename ⟨some content, some size, some canon⟩ args ⟨[]⟩ =
      .ok ⟨[⟨language, [canon], linesCount content % UINT32_MOD, size % UINT64_MOD⟩]⟩
    ∧ linesCount content =
        List.count 10 content + (if content.getLast? = some 10 ∨ content = [] then 0 else 1) := by
  have hmem : language ∉ args.exclude := by simpa using hexc
  constructor
  · simp [addFile, hext, hlang, hmem, updateLanguages, updateOne, LanguageInfo.new]
  · exact linesCount_characterization content

/-- Witness for `c3_lines_are_segments` at the concrete file `"a.py"` with
content `"a\n"`. -/
theorem c3_lines_are_segments_witness :
    addFile "a.py" ⟨some [97, 10], some 2, some "/a.py"⟩ ⟨false, [], [], false⟩ ⟨[]⟩ =
      .ok ⟨[⟨"Python", ["/a.py"], 1, 2⟩]⟩
    ∧ linesCount [97, 10] = List.count 10 [97, 10] + 0 := by
  have h := c3_lines_are_segments "a.py" "py" "Python" [97, 10] 2 "/a.py" ⟨false, [], [], false⟩
    (by simp [extensionOf, splitAtLastDot]) (by simp [LANGUAGES, List.lookup]) (by simp)
  simpa [linesCount, dropLine, UINT32_MOD, UINT64_MOD] using h

/-- C5: when the classified canonical language name appears in the exclude-list,
`add_file` returns with the `LanguageList` completely unchanged: no record is
created and no record is modified. -/
theorem c5_excluded_language_no_effect (filename ext language : String) (data : FileData)
    (args : Arguments) (st : LanguageList)
    (hext : extensionOf filename = some ext)
    (hlang : List.lookup ext LANGUAGES = some language)
    (hexc : args.exclude.contains language = true) :
    addFile filename data args st = .ok st := by
  have hmem : language ∈ args.exclude := by simpa using hexc
  simp [addFile, hext, hlang, hmem]

/-- Witness for `c5_excluded_language_no_effect`: excluding `"Python"` makes
adding `"a.py"` a no-op on the empty list. -/
theorem c5_excluded_language_no_effect_witness :
    (["Python"] : List String).contains "Python" = true
    ∧ addFile "a.py" ⟨some [97], some 1, some "/a.py"⟩ ⟨false, ["Python"], [], false⟩ ⟨[]⟩ =
        .ok ⟨[]⟩ :=
  ⟨by simp,
   c5_excluded_language_no_effect "a.py" "py" "Python" _ _ _
     (by simp [extensionOf, splitAtLastDot]) (by simp [LANGUAGES, List.lookup]) (by simp)⟩

/-- C4: once a file is classified (extension in the table, language not
excluded), failure of the content read, the metadata read, or the path
canonicalization makes `add_file` panic, and the panic propagates out of the
walker's entry loop, aborting the whole traversal with no result; by contrast
a directory whose `read_dir` fails is skipped silently: the walker returns the
accumulator unchanged for that subtree and continues with the sibling entries. -/
theorem c4_fatal_file_error_vs_silent_directory (filename ext language : String)
    (data : FileData) (args : Arguments) (st : LanguageList) (rest : List FsEntry)
    (hext : extensionOf filename = some ext)
    (hlang : List.lookup ext LANGUAGES = some language)
    (hexc : args.exclude.contains language = false)
    (hfail : data.content = none ∨ data.size = none ∨ data.canonical = none)
    (hdot : args.include_dotfiles = true ∨ startsWithDot filename = false) :
    (∃ e, addFile filename data args st = .error e)
    ∧ (∃ e, analyzeEntries args (FsEntry.file filename data :: rest) st = .error e)
    ∧ (∀ entries st2, analyzeDirectory args false entries st2 = .ok st2)
    ∧ (∀ dname sub rest2 st2,
        analyzeEntries args (FsEntry.dir dname false sub :: rest2) st2 =
          analyzeEntries args rest2 st2) := by
  have hmem : language ∉ args.exclude := by simpa using hexc
  have herr : ∃ e, addFile filename data args st = .error e := by
    obtain ⟨c, sz, cn⟩ := data
    simp only [addFile, hext, hlang]
    rcases hfail with h | h | h <;> simp_all <;> cases c <;> cases sz <;> cases cn <;> simp_all
  refine ⟨herr, ?_, ?_, ?_⟩
  · obtain ⟨e, he⟩ := herr
    refine ⟨e, ?_⟩
    rw [analyzeEntries.eq_def]
    simp only [entryName]
    rcases hdot with h | h <;> simp [h, he]
  · intro entries st2
    simp [analyzeDirectory]
  · intro dname sub rest2 st2
    conv_lhs => rw [analyzeEntries.eq_def]
    simp only [entryName]
    split
    · rfl
    · simp only [analyzeDirectory]
      split
      · rfl
      · rfl

/-- C6: in the human-readable `display` path, the sums of bytes, lines, and
file counts over the individually emitted records plus the corresponding
Other-bucket accumulators each equal the grand totals computed over all
records. (The overflow side conditions make the wrapping `u64`/`u32`/`usize`
accumulators coincide with the mathematical sums; they hold for any list the
program can build from real files. The identity holds whatever the byte-share
predicate returns, so the `f64` threshold's rounding cannot affect it.) -/
theorem c6_conservation (langs : List LanguageInfo)
    (hb : (langs.map (fun i => i.bytes)).sum < UINT64_MOD)
    (hl : (langs.map (fun i => i.lines)).sum < UINT32_MOD)
    (hf : (langs.map (fun i => i.files.length)).sum < UINT64_MOD) :
    ((emittedRecords langs).map (fun i => i.bytes)).sum + otherBytes langs = totalBytes langs
    ∧ ((emittedRecords langs).map (fun i => i.lines)).sum + otherLines langs = totalLines langs
    ∧ ((emittedRecords langs).map (fun i => i.files.length)).sum + otherFiles langs
        = totalFiles langs := by
  have key : ∀ (f : LanguageInfo → Nat) (W : Nat), (langs.map f).sum < W →
      ((emittedRecords langs).map f).sum +
        (otherRecords langs).foldl (fun acc i => (acc + f i) % W) 0 =
      langs.foldl (fun acc i => (acc + f i) % W) 0 := by
    intro f W hW
    have hpart := sum_map_filter_partition
      (fun i => bytePercentAtLeastOne i.bytes (totalBytes langs)) f langs
    rw [emittedRecords, otherRecords, foldl_mod_eq_sum_mod, foldl_mod_eq_sum_mod,
      Nat.mod_eq_of_lt hW, Nat.mod_eq_of_lt (by omega)]
    omega
  exact ⟨key (fun i => i.bytes) UINT64_MOD hb, key (fun i => i.lines) UINT32_MOD hl,
    key (fun i => i.files.length) UINT64_MOD hf⟩

/-- C7: `LanguageList::sort` orders records by descending byte count, records
with equal byte counts keep their relative encounter order (the output filtered
to any fixed byte count equals the input filtered the same way, so no other
field acts as a tie-breaker), and the result is a permutation of the input. -/
theorem c7_sort_descending_stable (st : LanguageList) :
    st.sort.languages.Pairwise (fun a b => b.bytes ≤ a.bytes)
    ∧ (∀ c : Nat, st.sort.languages.filter (fun i => i.bytes == c) =
        st.languages.filter (fun i => i.bytes == c))
    ∧ st.sort.languages.Perm st.languages := by
  have trans : ∀ a b c : LanguageInfo, decide (b.bytes ≤ a.bytes) = true →
      decide (c.bytes ≤ b.bytes) = true → decide (c.bytes ≤ a.bytes) = true := by
    intro a b c hab hbc
    simp only [decide_eq_true_eq] at hab hbc ⊢
    omega
  have total : ∀ a b : LanguageInfo,
      (decide (b.bytes ≤ a.bytes) || decide (a.bytes ≤ b.bytes)) = true := by
    intro a b
    simpa using Nat.le_total b.bytes a.bytes
  simp only [LanguageList.sort]
  refine ⟨?_, ?_, List.mergeSort_perm st.languages _⟩
  · have h := List.sorted_mergeSort trans total st.languages
    exact h.imp (fun hab => by simpa using hab)
  · intro c
    have hpair : (st.languages.filter (fun i => i.bytes == c)).Pairwise
        (fun a b => (fun a b => decide (b.bytes ≤ a.bytes)) a b = true) := by
      apply List.pairwise_of_forall_mem_list
      intro a ha b hb
      have ha2 := (List.mem_filter.mp ha).2
      have hb2 := (List.mem_filter.mp hb).2
      simp only [beq_iff_eq] at ha2 hb2
      simp [ha2, hb2]
    have hsub : List.Sublist (st.languages.filter (fun i => i.bytes == c))
        (st.languages.mergeSort (fun a b => decide (b.bytes ≤ a.bytes))) :=
      List.sublist_mergeSort trans total hpair (List.filter_sublist _)
    have hself : (st.languages.filter (fun i => i.bytes == c)).filter (fun i => i.bytes == c) =
        st.languages.filter (fun i => i.bytes == c) :=
      List.filter_eq_self.mpr (fun x hx => (List.mem_filter.mp hx).2)
    have h2 := List.Sublist.filter (fun i => i.bytes == c) hsub
    rw [hself] at h2
    have hperm := (List.mergeSort_perm st.languages
      (fun a b => decide (b.bytes ≤ a.bytes))).filter (fun i => i.bytes == c)
    exact (List.Sublist.eq_of_length h2 hperm.length_eq.symm).symm

/-- C8: `get_root_dir` terminates (it is a total function, each recursive step
dropping one component of the finite parent chain) and returns exactly the
first directory in the ascending ancestor chain — the start itself, then its
parents up to the filesystem root — that directly contains a `ROOT_INDICATORS`
entry, and `none` precisely when no ancestor up to the root contains one. -/
theorem c8_root_locator_nearest_or_none (ex : FsExists) (dir : List String) :
    getRootDir ex dir = (ancestors dir).find? (fun d => hasRootIndicator ex d)
    ∧ (getRootDir ex dir = none ↔ ∀ d ∈ ancestors dir, hasRootIndicator ex d = false) := by
  refine ⟨getRootDir_eq_find ex dir, ?_⟩
  rw [getRootDir_eq_find ex dir, List.find?_eq_none]
  simp

/-- C9: `add_file` preserves the invariant that the `LanguageList` holds at
most one record per canonical language name, and the list of names either
stays exactly the same (the existing record is updated in place) or grows by
appending one name that was not present before (a fresh record is appended
only when no record with that name exists). -/
theorem c9_at_most_one_record_per_name (filename : String) (data : FileData)
    (args : Arguments) (st st2 : LanguageList)
    (hnodup : (st.languages.map (fun i => i.name)).Nodup)
    (hok : addFile filename data args st = .ok st2) :
    (st2.languages.map (fun i => i.name)).Nodup
    ∧ (st2.languages.map (fun i => i.name) = st.languages.map (fun i => i.name)
       ∨ ∃ language, language ∉ st.languages.map (fun i => i.name)
           ∧ st2.languages.map (fun i => i.name) =
               st.languages.map (fun i => i.name) ++ [language]) := by
  unfold addFile at hok
  split at hok
  · obtain rfl : st = st2 := by injection hok
    exact ⟨hnodup, Or.inl rfl⟩
  · split at hok
    · obtain rfl : st = st2 := by injection hok
      exact ⟨hnodup, Or.inl rfl⟩
    · split at hok
      · obtain rfl : st = st2 := by injection hok
        exact ⟨hnodup, Or.inl rfl⟩
      · split at hok
        · exact absurd hok (by simp)
        · split at hok
          · exact absurd hok (by simp)
          · split at hok
            · exact absurd hok (by simp)
            · injection hok with h
              subst h
              simp only [updateLanguages_map_name]
              split
              · exact ⟨hnodup, Or.inl rfl⟩
              · rename_i hmem
                refine ⟨?_, Or.inr ⟨_, hmem, rfl⟩⟩
                exact ((List.perm_append_singleton _ _).nodup_iff).mpr
                  (List.nodup_cons.mpr ⟨hmem, hnodup⟩)

/-- C10 (implicit): exclusion matching is case-sensitive exact string
comparison against the canonical language name: a classified file is dropped
exactly when the exclude-list contains the canonical display name character
for character, and otherwise it is counted (one more file recorded); in
particular an exclude-list containing only `"python"` does not match the
canonical name `"Python"`, while `"Python"` does. -/
theorem c10_exclusion_exact_case_sensitive (filename ext language : String)
    (content : FileBytes) (size : Nat) (canon : String) (args : Arguments) (st : LanguageList)
    (hext : extensionOf filename = some ext)
    (hlang : List.lookup ext LANGUAGES = some language) :
    (args.exclude.contains language = true →
      addFile filename ⟨some content, some size, some canon⟩ args st = .ok st)
    ∧ (args.exclude.contains language = false →
      addFile filename ⟨some content, some size, some canon⟩ args st =
        .ok ⟨updateLanguages st.languages language (linesCount content) size canon⟩
      ∧ ((updateLanguages st.languages language (linesCount content) size canon).map
            (fun i => i.files.length)).sum =
          (st.languages.map (fun i => i.files.length)).sum + 1)
    ∧ (["python"] : List String).contains "Python" = false
    ∧ (["Python"] : List String).contains "Python" = true := by
  refine ⟨?_, ?_, by simp, by simp⟩
  · intro hexc
    have hmem : language ∈ args.exclude := by simpa using hexc
    simp [addFile, hext, hlang, hmem]
  · intro hexc
    have hmem : language ∉ args.exclude := by simpa using hexc
    exact ⟨by simp [addFile, hext, hlang, hmem], updateLanguages_filesSum _ _ _ _ _⟩

/-- Witness for `c4_fatal_file_error_vs_silent_directory`: a classified
`"a.py"` whose content read fails aborts, an unreadable directory does not. -/
theorem c4_fatal_file_error_vs_silent_directory_witness :
    extensionOf "a.py" = some "py"
    ∧ (∃ e, addFile "a.py" ⟨none, some 1, some "/a.py"⟩ ⟨false, [], [], false⟩ ⟨[]⟩ = .error e)
    ∧ (∃ e, analyzeEntries ⟨false, [], [], false⟩
        [.file "a.py" ⟨none, some 1, some "/a.py"⟩] ⟨[]⟩ = .error e)
    ∧ analyzeDirectory ⟨false, [], [], false⟩ false
        [.file "a.py" ⟨none, some 1, some "/a.py"⟩] ⟨[]⟩ = .ok ⟨[]⟩ := by
  have h := c4_fatal_file_error_vs_silent_directory "a.py" "py" "Python"
    ⟨none, some 1, some "/a.py"⟩ ⟨false, [], [], false⟩ ⟨[]⟩ []
    (by simp [extensionOf, splitAtLastDot]) (by simp [LANGUAGES, List.lookup]) (by simp)
    (Or.inl rfl) (Or.inr (by simp [startsWithDot]))
  exact ⟨by simp [extensionOf, splitAtLastDot], h.1, h.2.1, h.2.2.1 _ _⟩

/-- Witness for `c6_conservation` on the two-record list from the spec's
scenario 1 (Python 50 bytes, Rust 25 bytes). -/
theorem c6_conservation_witness :
    (([⟨"Python", ["/a.py"], 10, 50⟩, ⟨"Rust", ["/b.rs"], 5, 25⟩] :
        List LanguageInfo).map (fun i => i.bytes)).sum < UINT64_MOD
    ∧ (([⟨"Python", ["/a.py"], 10, 50⟩, ⟨"Rust", ["/b.rs"], 5, 25⟩] :
        List LanguageInfo).map (fun i => i.lines)).sum < UINT32_MOD
    ∧ (([⟨"Python", ["/a.py"], 10, 50⟩, ⟨"Rust", ["/b.rs"], 5, 25⟩] :
        List LanguageInfo).map (fun i => i.files.length)).sum < UINT64_MOD
    ∧ (((emittedRecords [⟨"Python", ["/a.py"], 10, 50⟩, ⟨"Rust", ["/b.rs"], 5, 25⟩]).map
          (fun i => i.bytes)).sum +
        otherBytes [⟨"Python", ["/a.py"], 10, 50⟩, ⟨"Rust", ["/b.rs"], 5, 25⟩] =
        totalBytes [⟨"Python", ["/a.py"], 10, 50⟩, ⟨"Rust", ["/b.rs"], 5, 25⟩]) :=
  ⟨by decide, by decide, by decide,
   (c6_conservation [⟨"Python", ["/a.py"], 10, 50⟩, ⟨"Rust", ["/b.rs"], 5, 25⟩]
     (by decide) (by decide) (by decide)).1⟩

/-- Witness for `c9_at_most_one_record_per_name`: adding a second Python file
to a list already holding a Python record keeps a single Python record. -/
theorem c9_at_most_one_record_per_name_witness :
    (((⟨[⟨"Python", ["/p/a.py"], 1, 1⟩]⟩ : LanguageList).languages.map
        (fun i => i.name)).Nodup)
    ∧ ((⟨[⟨"Python", ["/p/a.py", "/p/b.py"], 2, 2⟩]⟩ : LanguageList).languages.map
          (fun i => i.name)).Nodup := by
  have h := c9_at_most_one_record_per_name "b.py" ⟨some [98], some 1, some "/p/b.py"⟩
    ⟨false, [], [], false⟩ ⟨[⟨"Python", ["/p/a.py"], 1, 1⟩]⟩
    ⟨[⟨"Python", ["/p/a.py", "/p/b.py"], 2, 2⟩]⟩
    (by simp)
    (by simp [addFile, extensionOf, splitAtLastDot, LANGUAGES, List.lookup, linesCount,
      dropLine, updateLanguages, updateOne, UINT32_MOD, UINT64_MOD])
  exact ⟨by simp, h.1⟩

/-- Witness for `c10_exclusion_exact_case_sensitive`: with exclude-list
`["python"]`, the file `"a.py"` is still counted as Python. -/
theorem c10_exclusion_exact_case_sensitive_witness :
    extensionOf "a.py" = some "py"
    ∧ (["python"] : List String).contains "Python" = false
    ∧ addFile "a.py" ⟨some [97], some 1, some "/a.py"⟩ ⟨false, ["python"], [], false⟩ ⟨[]⟩ =
        .ok ⟨[⟨"Python", ["/a.py"], 1, 1⟩]⟩ := by
  have h := c10_exclusion_exact_case_sensitive "a.py" "py" "Python" [97] 1 "/a.py"
    ⟨false, ["python"], [], false⟩ ⟨[]⟩ (by simp [extensionOf, splitAtLastDot])
    (by simp [LANGUAGES, List.lookup])
  have hc : (["python"] : List String).contains "Python" = false := h.2.2.1
  have h2 := (h.2.1 hc).1
  refine ⟨by simp [extensionOf, splitAtLastDot], hc, ?_⟩
  simpa [updateLanguages, updateOne, LanguageInfo.new, linesCount, dropLine,
    UINT32_MOD, UINT64_MOD] using h2
